import Mathlib

/-!
Verification of the fbi-wanted-analysis repository: a shallow embedding of
the record cleaner (`cleaning.py`), the reward-text parser (`rewards.py`,
modelled from the specification since only its tests and callers are in the
source tree), and the aggregation functions of `analysis.py`, together with
theorems settling the frozen claims about them.

Pandas dataframes are embedded as lists of rows; timestamp parsing
(`pd.to_datetime`) is embedded as an explicit ISO-8601 parser returning
`Option`; `errors="coerce"` maps a failed parse to the null marker, while the
strict default raises, embedded as an `Option`-valued table computation.
All amounts use `ℚ` (pandas floats on the exact values exercised here).
-/

/-! ## Generic list helpers (pandas primitives) -/

/-- Keep-first de-duplication with an accumulator of already-seen elements.
`dedupF [] l` models pandas `drop_duplicates` / `nunique`'s distinct set:
it keeps the first occurrence of every element, in order. -/
def dedupF {α : Type} [DecidableEq α] (seen : List α) : List α → List α
  | [] => []
  | x :: xs => if x ∈ seen then dedupF seen xs else x :: dedupF (x :: seen) xs

/-- Distinct elements of a list, first occurrences kept, order preserved. -/
def dedup1 {α : Type} [DecidableEq α] (l : List α) : List α := dedupF [] l

theorem mem_dedupF {α : Type} [DecidableEq α] (x : α) :
    ∀ (l : List α) (seen : List α), x ∈ dedupF seen l ↔ x ∈ l ∧ x ∉ seen := by
  intro l
  induction l with
  | nil => intro seen; simp [dedupF]
  | cons y ys ih =>
      intro seen
      by_cases hy : y ∈ seen
      · simp only [dedupF, if_pos hy, List.mem_cons]
        rw [ih]
        constructor
        · rintro ⟨hx, hns⟩; exact ⟨Or.inr hx, hns⟩
        · rintro ⟨h | h, hns⟩
          · subst h; exact absurd hy hns
          · exact ⟨h, hns⟩
      · simp only [dedupF, if_neg hy, List.mem_cons]
        rw [ih]
        constructor
        · rintro (h | ⟨hx, hns⟩)
          · subst h; exact ⟨Or.inl rfl, hy⟩
          · simp only [List.mem_cons] at hns
            push_neg at hns
            exact ⟨Or.inr hx, hns.2⟩
        · rintro ⟨h | h, hns⟩
          · exact Or.inl h
          · by_cases hxy : x = y
            · exact Or.inl hxy
            · exact Or.inr ⟨h, by simp [List.mem_cons, hxy, hns]⟩

theorem mem_dedup1 {α : Type} [DecidableEq α] (x : α) (l : List α) :
    x ∈ dedup1 l ↔ x ∈ l := by
  unfold dedup1; rw [mem_dedupF]; simp

theorem nodup_dedupF {α : Type} [DecidableEq α] :
    ∀ (l : List α) (seen : List α), (dedupF seen l).Nodup := by
  intro l
  induction l with
  | nil => intro seen; simp [dedupF]
  | cons y ys ih =>
      intro seen
      by_cases hy : y ∈ seen
      · simpa [dedupF, if_pos hy] using ih seen
      · simp only [dedupF, if_neg hy]
        refine List.nodup_cons.mpr ⟨?_, ih (y :: seen)⟩
        intro hmem
        exact ((mem_dedupF y ys (y :: seen)).mp hmem).2 (List.mem_cons_self y seen)

theorem nodup_dedup1 {α : Type} [DecidableEq α] (l : List α) : (dedup1 l).Nodup :=
  nodup_dedupF l []

theorem dedup1_ne_nil {α : Type} [DecidableEq α] (x : α) (l : List α) :
    1 ≤ (dedup1 (x :: l)).length := by
  have : x ∈ dedup1 (x :: l) := (mem_dedup1 x (x :: l)).mpr (List.mem_cons_self x l)
  cases h : dedup1 (x :: l) with
  | nil => rw [h] at this; simp at this
  | cons a t => simp

/-- Keep-first dedup commutes with filtering, provided the seen-accumulators
agree on the elements the filter keeps. -/
theorem dedupF_filter {α : Type} [DecidableEq α] (p : α → Bool) :
    ∀ (l : List α) (s t : List α), (∀ a, p a = true → (a ∈ s ↔ a ∈ t)) →
      dedupF s (l.filter p) = (dedupF t l).filter p := by
  intro l
  induction l with
  | nil => intro s t _; simp [dedupF]
  | cons x xs ih =>
      intro s t hst
      by_cases hpx : p x = true
      · rw [List.filter_cons_of_pos hpx]
        by_cases hxt : x ∈ t
        · have hxs : x ∈ s := (hst x hpx).mpr hxt
          simp only [dedupF, if_pos hxt, if_pos hxs]
          exact ih s t hst
        · have hxs : x ∉ s := fun h => hxt ((hst x hpx).mp h)
          simp only [dedupF, if_neg hxt, if_neg hxs]
          rw [List.filter_cons_of_pos hpx]
          congr 1
          refine ih (x :: s) (x :: t) ?_
          intro a hpa
          simp only [List.mem_cons]
          rw [hst a hpa]
      · rw [List.filter_cons_of_neg (by simpa using hpx)]
        by_cases hxt : x ∈ t
        · simp only [dedupF, if_pos hxt]
          exact ih s t hst
        · simp only [dedupF, if_neg hxt]
          rw [List.filter_cons_of_neg (by simpa using hpx)]
          refine ih s (x :: t) ?_
          intro a hpa
          rw [hst a hpa]
          simp only [List.mem_cons]
          constructor
          · exact Or.inr
          · rintro (h | h)
            · subst h; exact absurd hpa (by simpa using hpx)
            · exact h

theorem dedup1_filter {α : Type} [DecidableEq α] (p : α → Bool) (l : List α) :
    dedup1 (l.filter p) = (dedup1 l).filter p :=
  dedupF_filter p l [] [] (fun _ _ => Iff.rfl)

/-- Insert an element into a list in front of the first element it is
`le`-below; auxiliary step of `sortLe`. -/
def insertLe {α : Type} (le : α → α → Bool) (x : α) : List α → List α
  | [] => [x]
  | y :: ys => if le x y then x :: y :: ys else y :: insertLe le x ys

/-- Insertion sort by a boolean comparison; models pandas `sort_values`
(any correct sort produces an output pairwise ordered by the key). -/
def sortLe {α : Type} (le : α → α → Bool) : List α → List α
  | [] => []
  | x :: xs => insertLe le x (sortLe le xs)

theorem insertLe_perm {α : Type} (le : α → α → Bool) (x : α) :
    ∀ l : List α, List.Perm (insertLe le x l) (x :: l) := by
  intro l
  induction l with
  | nil => simp [insertLe]
  | cons y ys ih =>
      by_cases h : le x y
      · simp [insertLe, h]
      · simp only [insertLe, if_neg h]
        exact (ih.cons y).trans (List.Perm.swap x y ys)

theorem sortLe_perm {α : Type} (le : α → α → Bool) :
    ∀ l : List α, List.Perm (sortLe le l) l := by
  intro l
  induction l with
  | nil => simp [sortLe]
  | cons x xs ih => exact (insertLe_perm le x (sortLe le xs)).trans (ih.cons x)

theorem mem_insertLe {α : Type} (le : α → α → Bool) (x a : α) (l : List α) :
    a ∈ insertLe le x l ↔ a = x ∨ a ∈ l :=
  ⟨fun h => by simpa using (insertLe_perm le x l).mem_iff.mp h,
   fun h => (insertLe_perm le x l).mem_iff.mpr (by simpa using h)⟩

theorem pairwise_insertLe {α : Type} (le : α → α → Bool)
    (htot : ∀ a b, le a b = true ∨ le b a = true)
    (htrans : ∀ a b c, le a b = true → le b c = true → le a c = true) (x : α) :
    ∀ l : List α, l.Pairwise (fun a b => le a b = true) →
      (insertLe le x l).Pairwise (fun a b => le a b = true) := by
  intro l
  induction l with
  | nil => intro _; simp [insertLe]
  | cons y ys ih =>
      intro hp
      rcases List.pairwise_cons.mp hp with ⟨hy, hys⟩
      by_cases h : le x y
      · simp only [insertLe, if_pos h]
        refine List.pairwise_cons.mpr ⟨?_, hp⟩
        intro b hb
        rcases List.mem_cons.mp hb with hb | hb
        · subst hb; exact h
        · exact htrans x y b h (hy b hb)
      · simp only [insertLe, if_neg h]
        have hyx : le y x = true := (htot x y).resolve_left (by simpa using h)
        refine List.pairwise_cons.mpr ⟨?_, ih hys⟩
        intro b hb
        rcases (mem_insertLe le x b ys).mp hb with hb | hb
        · subst hb; exact hyx
        · exact hy b hb

theorem pairwise_sortLe {α : Type} (le : α → α → Bool)
    (htot : ∀ a b, le a b = true ∨ le b a = true)
    (htrans : ∀ a b c, le a b = true → le b c = true → le a c = true) :
    ∀ l : List α, (sortLe le l).Pairwise (fun a b => le a b = true) := by
  intro l
  induction l with
  | nil => simp [sortLe]
  | cons x xs ih => exact pairwise_insertLe le htot htrans x (sortLe le xs) ih

/-- Largest element of a list of rationals (`none` on the empty list);
models `max` over the collected amount set, and the pandas `max` aggregate. -/
def listMax (l : List ℚ) : Option ℚ :=
  match l with
  | [] => none
  | x :: xs => some (xs.foldl max x)

/-- Smallest element of a list of rationals (`none` on the empty list). -/
def listMin (l : List ℚ) : Option ℚ :=
  match l with
  | [] => none
  | x :: xs => some (xs.foldl min x)

theorem foldl_max_mem : ∀ (xs : List ℚ) (x : ℚ), xs.foldl max x ∈ x :: xs := by
  intro xs
  induction xs with
  | nil => intro x; simp
  | cons y ys ih =>
      intro x
      simp only [List.foldl_cons]
      have h := ih (max x y)
      rw [List.mem_cons] at h
      rcases h with h | h
      · rcases max_choice x y with hm | hm
        · simp only [List.mem_cons]
          exact Or.inl (h.trans hm)
        · simp only [List.mem_cons]
          exact Or.inr (Or.inl (h.trans hm))
      · simp only [List.mem_cons]
        exact Or.inr (Or.inr h)

theorem foldl_max_le : ∀ (xs : List ℚ) (x y : ℚ), y ∈ x :: xs → y ≤ xs.foldl max x := by
  intro xs
  induction xs with
  | nil => intro x y hy; rw [List.mem_cons] at hy; simp at hy; simp [hy]
  | cons z zs ih =>
      intro x y hy
      simp only [List.foldl_cons]
      rw [List.mem_cons, List.mem_cons] at hy
      rcases hy with h | h | h
      · exact le_trans (h ▸ le_max_left x z) (ih (max x z) _ (List.mem_cons_self _ _))
      · exact le_trans (h ▸ le_max_right x z) (ih (max x z) _ (List.mem_cons_self _ _))
      · exact ih (max x z) y (List.mem_cons_of_mem _ h)

theorem foldl_min_mem : ∀ (xs : List ℚ) (x : ℚ), xs.foldl min x ∈ x :: xs := by
  intro xs
  induction xs with
  | nil => intro x; simp
  | cons y ys ih =>
      intro x
      simp only [List.foldl_cons]
      have h := ih (min x y)
      rw [List.mem_cons] at h
      rcases h with h | h
      · rcases min_choice x y with hm | hm
        · simp only [List.mem_cons]
          exact Or.inl (h.trans hm)
        · simp only [List.mem_cons]
          exact Or.inr (Or.inl (h.trans hm))
      · simp only [List.mem_cons]
        exact Or.inr (Or.inr h)

theorem foldl_min_le : ∀ (xs : List ℚ) (x y : ℚ), y ∈ x :: xs → xs.foldl min x ≤ y := by
  intro xs
  induction xs with
  | nil => intro x y hy; rw [List.mem_cons] at hy; simp at hy; simp [hy]
  | cons z zs ih =>
      intro x y hy
      simp only [List.foldl_cons]
      rw [List.mem_cons, List.mem_cons] at hy
      rcases hy with h | h | h
      · exact le_trans (ih (min x z) _ (List.mem_cons_self _ _)) (h ▸ min_le_left x z)
      · exact le_trans (ih (min x z) _ (List.mem_cons_self _ _)) (h ▸ min_le_right x z)
      · exact ih (min x z) y (List.mem_cons_of_mem _ h)

theorem length_filter_add {α : Type} (p : α → Bool) :
    ∀ l : List α, (l.filter p).length + (l.filter (fun a => !(p a))).length = l.length := by
  intro l
  induction l with
  | nil => simp
  | cons x xs ih =>
      by_cases h : p x
      · rw [List.filter_cons_of_pos h, List.filter_cons_of_neg (by simp [h])]
        simp only [List.length_cons]
        omega
      · rw [List.filter_cons_of_neg (by simpa using h), List.filter_cons_of_pos (by simpa using h)]
        simp only [List.length_cons]
        omega

/-- Partitioning a list by a complete, duplicate-free list of keys accounts
for every element exactly once. -/
theorem partition_length {α κ : Type} [DecidableEq κ] (key : α → κ) :
    ∀ (ks : List κ) (L : List α), ks.Nodup → (∀ x ∈ L, key x ∈ ks) →
      (ks.map (fun k => (L.filter (fun x => decide (key x = k))).length)).sum = L.length := by
  intro ks
  induction ks with
  | nil =>
      intro L _ hcov
      cases L with
      | nil => simp
      | cons x xs => exact absurd (hcov x (List.mem_cons_self x xs)) (by simp)
  | cons k ks ih =>
      intro L hnd hcov
      rcases List.nodup_cons.mp hnd with ⟨hk, hnd'⟩
      simp only [List.map_cons, List.sum_cons]
      have hrest : ∀ k' ∈ ks,
          L.filter (fun x => decide (key x = k')) =
          (L.filter (fun x => !(decide (key x = k)))).filter (fun x => decide (key x = k')) := by
        intro k' hk'
        rw [List.filter_filter]
        refine (List.filter_congr ?_).symm
        intro x _
        by_cases hx : key x = k'
        · have hkk : k' ≠ k := fun hc => hk (hc ▸ hk')
          simp [hx, hkk]
        · simp [hx]
      have hmap : ks.map (fun k' => (L.filter (fun x => decide (key x = k'))).length) =
          ks.map (fun k' => ((L.filter (fun x => !(decide (key x = k)))).filter
            (fun x => decide (key x = k'))).length) := by
        refine List.map_congr_left ?_
        intro k' hk'
        rw [hrest k' hk']
      rw [hmap, ih (L.filter (fun x => !(decide (key x = k)))) hnd' ?_]
      · exact length_filter_add (fun x => decide (key x = k)) L
      · intro x hx
        rw [List.mem_filter] at hx
        rcases hx with ⟨hxL, hxk⟩
        have := hcov x hxL
        rw [List.mem_cons] at this
        rcases this with h | h
        · exact absurd (by simpa using hxk) (by simp [h])
        · exact h

/-- On a list of pairs whose first components all equal `d`, projecting to the
second component commutes with keep-first de-duplication. -/
theorem dedupF_map_snd {κ α : Type} [DecidableEq κ] [DecidableEq α] (d : κ) :
    ∀ (l s : List (κ × α)), (∀ x ∈ l, x.1 = d) → (∀ y ∈ s, y.1 = d) →
      dedupF (s.map Prod.snd) (l.map Prod.snd) = (dedupF s l).map Prod.snd := by
  intro l
  induction l with
  | nil => intro s _ _; simp [dedupF]
  | cons x xs ih =>
      intro s hl hs
      have hx1 : x.1 = d := hl x (List.mem_cons_self x xs)
      have hmem : x.2 ∈ s.map Prod.snd ↔ x ∈ s := by
        constructor
        · intro h
          rcases List.mem_map.mp h with ⟨y, hy, hy2⟩
          have hy1 : y.1 = d := hs y hy
          have : y = x := Prod.ext (by rw [hy1, hx1]) hy2
          exact this ▸ hy
        · intro h
          exact List.mem_map.mpr ⟨x, h, rfl⟩
      by_cases hxs : x ∈ s
      · simp only [List.map_cons, dedupF, if_pos hxs, if_pos (hmem.mpr hxs)]
        exact ih s (fun y hy => hl y (List.mem_cons_of_mem x hy)) hs
      · simp only [List.map_cons, dedupF, if_neg hxs, if_neg (fun h => hxs (hmem.mp h))]
        have : (x :: s).map Prod.snd = x.2 :: s.map Prod.snd := rfl
        rw [← this, ih (x :: s) (fun y hy => hl y (List.mem_cons_of_mem x hy)) ?_]
        intro y hy
        rw [List.mem_cons] at hy
        rcases hy with h | h
        · rw [h, hx1]
        · exact hs y h

/-- Two duplicate-free lists with the same members have the same length. -/
theorem nodup_length_eq {α : Type} [DecidableEq α] (l₁ l₂ : List α)
    (h₁ : l₁.Nodup) (h₂ : l₂.Nodup) (h : ∀ x, x ∈ l₁ ↔ x ∈ l₂) :
    l₁.length = l₂.length := by
  have hfin : l₁.toFinset = l₂.toFinset := by
    ext a
    simp only [List.mem_toFinset]
    exact h a
  calc l₁.length = l₁.toFinset.card := (List.toFinset_card_of_nodup h₁).symm
    _ = l₂.toFinset.card := by rw [hfin]
    _ = l₂.length := List.toFinset_card_of_nodup h₂

/-! ## Timestamp parsing

`pd.to_datetime` applied to a string column. The accepted grammar is
modelled as ISO-8601 `YYYY-MM-DD`, optionally followed by `T` or a space and
`HH:MM:SS`; a successfully parsed timestamp is encoded as the `Nat`
`((((year*100+month)*100+day)*100+hour)*100+minute)*100+second`, whose order
agrees with chronological order on this grammar. -/

/-- Numeric value of two decimal digit characters. -/
def twoDigits (a b : Char) : Nat := (a.toNat - 48) * 10 + (b.toNat - 48)

/-- Parse `HH:MM:SS` with range checks. -/
def parseTime (cs : List Char) : Option Nat :=
  match cs with
  | [h1, h2, ':', m1, m2, ':', s1, s2] =>
      if h1.isDigit && h2.isDigit && m1.isDigit && m2.isDigit
          && s1.isDigit && s2.isDigit then
        let h := twoDigits h1 h2
        let m := twoDigits m1 m2
        let s := twoDigits s1 s2
        if h ≤ 23 && m ≤ 59 && s ≤ 59 then some ((h * 100 + m) * 100 + s) else none
      else none
  | _ => none

/-- Parse an ISO-8601 date, optionally with a `T`- or space-separated time;
`none` models a `pd.to_datetime` parse failure on the string. -/
def parseDate (s : String) : Option Nat :=
  match s.data with
  | y1 :: y2 :: y3 :: y4 :: '-' :: m1 :: m2 :: '-' :: d1 :: d2 :: rest =>
      if y1.isDigit && y2.isDigit && y3.isDigit && y4.isDigit
          && m1.isDigit && m2.isDigit && d1.isDigit && d2.isDigit then
        let y := twoDigits y1 y2 * 100 + twoDigits y3 y4
        let m := twoDigits m1 m2
        let d := twoDigits d1 d2
        if 1 ≤ m && m ≤ 12 && 1 ≤ d && d ≤ 31 then
          match rest with
          | [] => some (((y * 100 + m) * 100 + d) * 1000000)
          | sep :: t =>
              if sep = 'T' || sep = ' ' then
                match parseTime t with
                | some tv => some (((y * 100 + m) * 100 + d) * 1000000 + tv)
                | none => none
              else none
        else none
      else none
  | _ => none

/-! ## Record Cleaner (`cleaning.py`, `clean_wanted`) -/

namespace Cleaning

/-- A pandas cell value. `null` covers `None`/`NaN`/`NaT`; `date` is a
parsed timestamp (encoding of `parseDate`). -/
inductive PVal where
  | null : PVal
  | str : String → PVal
  | strList : List String → PVal
  | nat : Nat → PVal
  | bool : Bool → PVal
  | date : Nat → PVal
deriving DecidableEq

/-- `pd.to_datetime(col, errors="coerce")` on one cell: strings are parsed
(`NaT`, i.e. `null`, on failure), datetimes and missing values pass through,
integers are epoch-interpreted, other values coerce to `NaT`. -/
def toDatetimeCoerce : PVal → PVal
  | PVal.str s =>
      match parseDate s with
      | some d => PVal.date d
      | none => PVal.null
  | PVal.date d => PVal.date d
  | PVal.null => PVal.null
  | PVal.nat n => PVal.date n
  | PVal.bool _ => PVal.null
  | PVal.strList _ => PVal.null

/-- The `field_offices` lambda in `clean_wanted`:
`", ".join(x) if isinstance(x, list) else (x if pd.notna(x) else "")`. -/
def fieldOfficesNorm : PVal → PVal
  | PVal.strList l => PVal.str (String.intercalate ", " l)
  | PVal.null => PVal.str ""
  | v => v

/-- A dataframe row: cells keyed by column name, in column order. -/
def Row : Type := List (String × PVal)

instance : DecidableEq Row := by unfold Row; infer_instance

/-- A dataframe: a column list and a list of rows. -/
structure DataFrame where
  cols : List String
  rows : List Row
deriving DecidableEq

/-- Apply `f` to the cells of column `c` in one row. -/
def mapRowCol (f : PVal → PVal) (c : String) (r : Row) : Row :=
  r.map (fun p => if p.1 = c then (p.1, f p.2) else p)

/-- `df[c] = df[c].apply(f)`: transform one column everywhere. -/
def mapCol (f : PVal → PVal) (c : String) (df : DataFrame) : DataFrame :=
  ⟨df.cols, df.rows.map (mapRowCol f c)⟩

/-- `clean_wanted`: a copy of the frame in which, when present, the
`publication` column is datetime-coerced and the `field_offices` column is
normalized to a display string. No other column is touched and no column is
added or removed. -/
def clean_wanted (df : DataFrame) : DataFrame :=
  let df1 := if "publication" ∈ df.cols then mapCol toDatetimeCoerce "publication" df else df
  if "field_offices" ∈ df1.cols then mapCol fieldOfficesNorm "field_offices" df1 else df1

/-- The effect of `clean_wanted` on a single cell of column `c`, given the
set of columns present in the frame. -/
def cleanCell (cols : List String) (c : String) (v : PVal) : PVal :=
  let v1 := if c = "publication" ∧ "publication" ∈ cols then toDatetimeCoerce v else v
  if c = "field_offices" ∧ "field_offices" ∈ cols then fieldOfficesNorm v1 else v1

/-- The effect of `clean_wanted` on a single row. -/
def cleanRow (cols : List String) (r : Row) : Row :=
  r.map (fun p => (p.1, cleanCell cols p.1 p.2))

theorem clean_wanted_cols (df : DataFrame) : (clean_wanted df).cols = df.cols := by
  unfold clean_wanted
  by_cases hp : "publication" ∈ df.cols <;> by_cases hf : "field_offices" ∈ df.cols <;>
    simp [hp, hf, mapCol]

/-- One row under both column maps equals `cleanRow` when both columns exist. -/
theorem mapRowCol_cleanRow_both (cols : List String) (hp : "publication" ∈ cols)
    (hf : "field_offices" ∈ cols) (r : Row) :
    mapRowCol fieldOfficesNorm "field_offices" (mapRowCol toDatetimeCoerce "publication" r) =
      cleanRow cols r := by
  unfold mapRowCol cleanRow
  rw [List.map_map]
  refine List.map_congr_left ?_
  intro p _
  simp only [Function.comp]
  by_cases h1 : p.1 = "publication"
  · have h2 : ¬ p.1 = "field_offices" := by rw [h1]; decide
    simp [h1, h2, cleanCell, hp, hf]
  · by_cases h2 : p.1 = "field_offices"
    · simp [h1, h2, cleanCell, hp, hf]
    · simp [h1, h2, cleanCell]

theorem mapRowCol_cleanRow_pub (cols : List String) (hp : "publication" ∈ cols)
    (hf : "field_offices" ∉ cols) (r : Row) :
    mapRowCol toDatetimeCoerce "publication" r = cleanRow cols r := by
  unfold mapRowCol cleanRow
  refine List.map_congr_left ?_
  intro p _
  by_cases h1 : p.1 = "publication"
  · simp [h1, cleanCell, hp, hf]
  · by_cases h2 : p.1 = "field_offices"
    · rw [if_neg h1]
      have hc : cleanCell cols p.1 p.2 = p.2 := by simp [cleanCell, h1, hf]
      rw [hc]
    · simp [h1, h2, cleanCell]

theorem mapRowCol_cleanRow_fo (cols : List String) (hp : "publication" ∉ cols)
    (hf : "field_offices" ∈ cols) (r : Row) :
    mapRowCol fieldOfficesNorm "field_offices" r = cleanRow cols r := by
  unfold mapRowCol cleanRow
  refine List.map_congr_left ?_
  intro p _
  by_cases h1 : p.1 = "publication"
  · have h2 : ¬ p.1 = "field_offices" := by rw [h1]; decide
    rw [if_neg h2]
    have hc : cleanCell cols p.1 p.2 = p.2 := by simp [cleanCell, hp, h2]
    rw [hc]
  · by_cases h2 : p.1 = "field_offices"
    · simp [h1, h2, cleanCell, hp, hf]
    · simp [h1, h2, cleanCell]

theorem cleanRow_id (cols : List String) (hp : "publication" ∉ cols)
    (hf : "field_offices" ∉ cols) (r : Row) : cleanRow cols r = r := by
  unfold cleanRow
  refine (List.map_congr_left ?_).trans (List.map_id r)
  intro p _
  simp [cleanCell, hp, hf]

/-- `clean_wanted` factors as an independent per-row, per-cell map. -/
theorem clean_wanted_eq (df : DataFrame) :
    clean_wanted df = ⟨df.cols, df.rows.map (cleanRow df.cols)⟩ := by
  obtain ⟨cols, rows⟩ := df
  by_cases hp : "publication" ∈ cols <;> by_cases hf : "field_offices" ∈ cols
  · simp only [clean_wanted, mapCol, hp, hf, if_true, if_pos]
    congr 1
    rw [List.map_map]
    refine List.map_congr_left ?_
    intro r _
    exact mapRowCol_cleanRow_both cols hp hf r
  · simp only [clean_wanted, mapCol, hp, hf, if_true, if_pos, if_neg, not_false_iff]
    congr 1
    refine List.map_congr_left ?_
    intro r _
    exact mapRowCol_cleanRow_pub cols hp hf r
  · simp only [clean_wanted, mapCol, hp, hf, if_true, if_pos, if_neg, not_false_iff, if_false]
    congr 1
    refine List.map_congr_left ?_
    intro r _
    exact mapRowCol_cleanRow_fo cols hp hf r
  · simp only [clean_wanted, hp, hf, if_neg, not_false_iff, if_false]
    congr 1
    refine ((List.map_id rows).symm.trans ?_)
    refine List.map_congr_left ?_
    intro r _
    exact (cleanRow_id cols hp hf r).symm

theorem toDatetimeCoerce_idem (v : PVal) :
    toDatetimeCoerce (toDatetimeCoerce v) = toDatetimeCoerce v := by
  cases v with
  | str s =>
      unfold toDatetimeCoerce
      cases h : parseDate s <;> simp [h]
  | _ => rfl

theorem fieldOfficesNorm_idem (v : PVal) :
    fieldOfficesNorm (fieldOfficesNorm v) = fieldOfficesNorm v := by
  cases v <;> rfl

theorem cleanCell_idem (cols : List String) (c : String) (v : PVal) :
    cleanCell cols c (cleanCell cols c v) = cleanCell cols c v := by
  by_cases h1 : c = "publication" ∧ "publication" ∈ cols
  · have h2 : ¬ (c = "field_offices" ∧ "field_offices" ∈ cols) := by
      rintro ⟨hc, _⟩
      rw [h1.1] at hc
      exact absurd hc (by decide)
    simp only [cleanCell, if_pos h1, if_neg h2]
    exact toDatetimeCoerce_idem v
  · by_cases h2 : c = "field_offices" ∧ "field_offices" ∈ cols
    · simp only [cleanCell, if_neg h1, if_pos h2]
      exact fieldOfficesNorm_idem v
    · simp only [cleanCell, if_neg h1, if_neg h2]

theorem cleanRow_idem (cols : List String) (r : Row) :
    cleanRow cols (cleanRow cols r) = cleanRow cols r := by
  unfold cleanRow
  rw [List.map_map]
  refine List.map_congr_left ?_
  intro p _
  simp only [Function.comp]
  rw [cleanCell_idem]

/-- Re-cleaning a cleaned frame changes nothing. -/
theorem clean_wanted_idem (df : DataFrame) :
    clean_wanted (clean_wanted df) = clean_wanted df := by
  rw [clean_wanted_eq df, clean_wanted_eq ⟨df.cols, df.rows.map (cleanRow df.cols)⟩]
  simp only [List.map_map]
  congr 1
  refine List.map_congr_left ?_
  intro r _
  simp only [Function.comp]
  exact cleanRow_idem df.cols r

end Cleaning

/-! ## Reward Text Parser

`fbi_wanted_analysis/rewards.py` is not present in the source tree (only its
tests and its callers are), so this component is modelled from the
specification, §4.1. -/

namespace Rewards

/-- Case-insensitive "the pattern is a prefix here" test on char lists. -/
def startsLC : List Char → List Char → Bool
  | _, [] => true
  | [], _ :: _ => false
  | h :: hs, p :: ps => (h.toLower = p.toLower) && startsLC hs ps

/-- Case-insensitive substring containment on char lists. -/
def containsLC : List Char → List Char → Bool
  | [], pat => pat.isEmpty
  | hay@(_ :: t), pat => startsLC hay pat || containsLC t pat

/-- Numeric value of a digit-character list. -/
def digitsVal (ds : List Char) : Nat :=
  ds.foldl (fun a c => a * 10 + (c.toNat - 48)) 0

/-- Take a maximal run of digits. -/
def takeDigitRun : List Char → (List Char × List Char)
  | [] => ([], [])
  | c :: rest =>
      if c.isDigit then
        let p := takeDigitRun rest
        (c :: p.1, p.2)
      else ([], c :: rest)

/-- Modelled from the spec: take the digits of an amount, accepting comma
thousands-separators; a comma not followed by a digit (e.g. sentence
punctuation) ends the amount. -/
def takeAmtDigits (l : List Char) : (List Char × List Char) :=
  match l with
  | [] => ([], [])
  | c :: rest =>
      if c.isDigit then
        let p := takeAmtDigits rest
        (c :: p.1, p.2)
      else if c = ',' then
        if (rest.headD 'x').isDigit then takeAmtDigits rest else ([], c :: rest)
      else ([], c :: rest)

/-- Modelled from the spec: an optional decimal fraction, a single `.`
followed by digits; a `.` not followed by a digit is not a fraction. -/
def takeFrac : List Char → (List Char × List Char)
  | '.' :: rest@(d :: _) =>
      if d.isDigit then takeDigitRun rest else ([], '.' :: rest)
  | l => ([], l)

/-- A scale word must end at a word boundary. -/
def boundaryOk : List Char → Bool
  | [] => true
  | c :: _ => !c.isAlpha

/-- Modelled from the spec: an optional case-insensitive scale word
(`thousand`/`million`/`billion`) after the number, multiplying it by
1e3/1e6/1e9. -/
def scaleFactor (cs : List Char) : Option Nat :=
  let t := cs.dropWhile (fun c => c.isWhitespace)
  if startsLC t "thousand".data && boundaryOk (t.drop 8) then some 1000
  else if startsLC t "million".data && boundaryOk (t.drop 7) then some 1000000
  else if startsLC t "billion".data && boundaryOk (t.drop 7) then some 1000000000
  else none

/-- Modelled from the spec: the numeric token immediately after a `$`:
digits with optional comma separators, optional decimal fraction, optional
scale word; the value is `(digits + fraction / 10^k) * scale`, written over
the common denominator `10^k` (and as a plain natural number when there is
no fraction). `none` when no digit follows the `$`. -/
def parseAmount (cs : List Char) : Option ℚ :=
  match takeAmtDigits cs with
  | ([], _) => none
  | (ds, rest) =>
      let p := takeFrac rest
      let scale : Nat := (scaleFactor p.2).getD 1
      if p.1.isEmpty then some ((digitsVal ds * scale : Nat) : ℚ)
      else
        some ((((digitsVal ds * 10 ^ p.1.length + digitsVal p.1) * scale : Nat) : ℚ) /
          (((10 : Nat) ^ p.1.length : Nat) : ℚ))

/-- Modelled from the spec: collect ALL dollar amounts in the text: every
`$` immediately followed by a numeric token contributes one amount. -/
def scanAmounts : List Char → List ℚ
  | [] => []
  | c :: rest =>
      if c = '$' then
        match parseAmount rest with
        | some q => q :: scanAmounts rest
        | none => scanAmounts rest
      else scanAmounts rest

def upToPat : List Char := ['u', 'p', ' ', 't', 'o']

/-- Modelled from the spec: true iff some detected amount has an occurrence
of "up to" (case-insensitive) before (or starting at) it. -/
def amountsWithUpTo : List Char → Bool → Bool
  | [], _ => false
  | c :: rest, seen =>
      let seen2 := seen || startsLC (c :: rest) upToPat
      if c = '$' && (parseAmount rest).isSome && seen2 then true
      else amountsWithUpTo rest seen2

/-- Modelled from the spec: the ordered sponsor phrase patterns for
`reward_program`; first match wins, matching is case-insensitive. -/
def programPatterns : List (String × String) :=
  [("rewards for justice", "Rewards for Justice"), ("fbi", "FBI")]

def matchProgram (cs : List Char) : Option String :=
  (programPatterns.find? (fun p => containsLC cs p.1.data)).map (fun p => p.2)

/-- Blank / whitespace-only test. -/
def isBlank (s : String) : Bool := s.data.all (fun c => c.isWhitespace)

/-- The structured reward fields produced by the parser (spec §3). -/
structure RewardFields where
  reward_has_text : Bool
  reward_has_amount : Bool
  reward_amount_min_usd : Option ℚ
  reward_amount_max_usd : Option ℚ
  reward_is_up_to : Bool
  reward_mentions_additional : Bool
  reward_program : Option String
deriving DecidableEq

/-- The all-false / all-null result for null or blank input. -/
def emptyReward : RewardFields :=
  ⟨false, false, none, none, false, false, none⟩

/-- Modelled from the spec: `parse_reward(text) -> structured reward fields`
(`rewards.py` is not in the source tree). Null or blank input gives the
all-false/all-null result; otherwise all dollar amounts are collected and
min/max taken, with the qualifier, supplementary-reward and program fields
derived by case-insensitive pattern matching. -/
def parse_reward : Option String → RewardFields
  | none => emptyReward
  | some s =>
      if isBlank s then emptyReward
      else
        let cs := s.data
        let amts := scanAmounts cs
        { reward_has_text := true
          reward_has_amount := !amts.isEmpty
          reward_amount_min_usd := listMin amts
          reward_amount_max_usd := listMax amts
          reward_is_up_to := amountsWithUpTo cs false
          reward_mentions_additional :=
            containsLC cs "additional".data || containsLC cs "plus".data
          reward_program := matchProgram cs }

end Rewards

/-! ## Aggregation Engine (`analysis.py`) -/

namespace Analysis

/-- Strict `pd.to_datetime` on one cell: missing values pass through as
`NaT` (`none`); a non-null string must parse, and a failure (the raised
exception) is `none` at the column level. -/
def toDT : Option String → Option (Option Nat)
  | none => some none
  | some s =>
      match parseDate s with
      | some d => some (some d)
      | none => none

/-- Input row of `quantity_over_time`: the `snapshot_date` and `uid`
columns (a cell may be null). -/
structure QRow where
  snapshot_date : Option String
  uid : String
deriving DecidableEq

/-- `df["snapshot_date"] = pd.to_datetime(df["snapshot_date"])` over the
whole column; `none` models the exception raised on any unparsable
non-null string. -/
def parseCol (rows : List QRow) : Option (List (Option Nat × String)) :=
  match rows with
  | [] => some []
  | r :: rs =>
      match toDT r.snapshot_date, parseCol rs with
      | some d, some t => some ((d, r.uid) :: t)
      | _, _ => none

/-- The (key, uid) pairs that take part in the groupby: pandas `groupby`
drops rows whose group key is `NaT`. -/
def validPairs (parsed : List (Option Nat × String)) : List (Nat × String) :=
  parsed.filterMap (fun p => p.1.map (fun d => (d, p.2)))

/-- `df.groupby("snapshot_date")["uid"].nunique()`: one row per distinct
key, counting distinct uids within the group. -/
def groupCounts (valid : List (Nat × String)) : List (Nat × Nat) :=
  (dedup1 (valid.map Prod.fst)).map
    (fun d => (d, (dedup1 ((valid.filter (fun q => decide (q.1 = d))).map Prod.snd)).length))

/-- `quantity_over_time` (analysis.py): count unique listings per snapshot,
sorted by snapshot date. -/
def quantity_over_time (rows : List QRow) : Option (List (Nat × Nat)) :=
  (parseCol rows).map (fun parsed =>
    sortLe (fun a b => decide (a.1 ≤ b.1)) (groupCounts (validPairs parsed)))

/-- Input row of `geographic_concentration_over_time`: `snapshot_date`,
`uid` and the selected geography column. -/
structure GRow where
  snapshot_date : Option String
  uid : String
  geo : Option String
deriving DecidableEq

/-- A row after the datetime conversion of `snapshot_date`. -/
structure KRow where
  date : Option Nat
  uid : String
  geo : Option String
deriving DecidableEq

/-- The strict datetime conversion of the `snapshot_date` column. -/
def parseColG (rows : List GRow) : Option (List KRow) :=
  match rows with
  | [] => some []
  | r :: rs =>
      match toDT r.snapshot_date, parseColG rs with
      | some d, some t => some (⟨d, r.uid, r.geo⟩ :: t)
      | _, _ => none

/-- `df.dropna(subset=[geography])`. -/
def dropNullGeo (parsed : List KRow) : List KRow :=
  parsed.filter (fun k => k.geo.isSome)

/-- A row taking part in the (snapshot_date, geography) groupby. -/
structure TRow where
  date : Nat
  geo : String
  uid : String
deriving DecidableEq

/-- Rows after `dropna(subset=[geography])` whose group keys are non-null
(a `NaT` date is dropped by the two-key `groupby`). -/
def keptRows (parsed : List KRow) : List TRow :=
  (dropNullGeo parsed).filterMap (fun k =>
    match k.date, k.geo with
    | some d, some g => some ⟨d, g, k.uid⟩
    | _, _ => none)

/-- One group row of `groupby(["snapshot_date", geography])["uid"].nunique()`. -/
structure CRow where
  date : Nat
  geo : String
  listings : Nat
deriving DecidableEq

def groupGeoCounts (kept : List TRow) : List CRow :=
  (dedup1 (kept.map (fun t => (t.date, t.geo)))).map (fun k =>
    ⟨k.1, k.2,
      (dedup1 ((kept.filter (fun t => decide (t.date = k.1) && decide (t.geo = k.2))).map
        (fun t => t.uid))).length⟩)

/-- Output row of the geographic concentration aggregation. -/
structure GOut where
  date : Nat
  geo : String
  listings : Nat
  share : ℚ
deriving DecidableEq

/-- The per-snapshot total of the counts table
(`counts.groupby("snapshot_date")["listings"].sum()` at one date). -/
def dateTotal (counts : List CRow) (d : Nat) : Nat :=
  ((counts.filter (fun c => decide (c.date = d))).map (fun c => c.listings)).sum

/-- The totals merge and the share column. The code computes per-snapshot
totals with a groupby-sum and merges them back on the unique key
`snapshot_date`; for each row that merge equals the sum of `listings` over
the count rows that carry the same date. -/
def withShare (counts : List CRow) : List GOut :=
  counts.map (fun c =>
    ⟨c.date, c.geo, c.listings, (c.listings : ℚ) / ((dateTotal counts c.date : Nat) : ℚ)⟩)

/-- `sort_values(["snapshot_date", "share"], ascending=[True, False])`. -/
def geoLe (a b : GOut) : Bool :=
  decide (a.date < b.date) || (decide (a.date = b.date) && decide (b.share ≤ a.share))

/-- `geographic_concentration_over_time` (analysis.py). -/
def geographic_concentration_over_time (rows : List GRow) : Option (List GOut) :=
  (parseColG rows).map (fun parsed =>
    sortLe geoLe (withShare (groupGeoCounts (keptRows parsed))))

/-- Input row of `reward_by_crime_type`. -/
structure RRow where
  uid : String
  subjects : Option (List String)
  reward_has_amount : Option Bool
  reward_amount_max_usd : Option ℚ
deriving DecidableEq

/-- `str.strip()` on the underlying characters: drop whitespace from both
ends. -/
def stripChars (l : List Char) : List Char :=
  ((l.dropWhile (fun c => c.isWhitespace)).reverse.dropWhile
    (fun c => c.isWhitespace)).reverse

def strip (s : String) : String := String.mk (stripChars s.data)

/-- `df[df["reward_has_amount"].fillna(False)]`. -/
def hasAmountRows (df : List RRow) : List RRow :=
  df.filter (fun r => r.reward_has_amount.getD false)

/-- `dropna(subset=["subjects"])`, keeping the tag list alongside the row. -/
def withSubjects (df : List RRow) : List (RRow × List String) :=
  df.filterMap (fun r => r.subjects.map (fun l => (r, l)))

/-- `explode("subjects")`: one row per tag; pandas yields a single `NaN`
row (`none`) for an empty list. -/
def explodeTags (df : List (RRow × List String)) : List (RRow × Option String) :=
  df.flatMap (fun p =>
    if p.2.isEmpty then [(p.1, none)] else p.2.map (fun t => (p.1, some t)))

/-- `.astype(str).str.strip()` on one exploded tag cell: `NaN` renders as
the string `"nan"`, then both ends are stripped. -/
def astypeStrip (t : Option String) : String :=
  strip (match t with | none => "nan" | some s => s)

/-- One exploded, cleaned tag row. -/
structure TagRow where
  uid : String
  tag : String
  reward : Option ℚ
deriving DecidableEq

/-- Tag cleaning and the `subjects != ""` filter. -/
def tagRows (df : List (RRow × Option String)) : List TagRow :=
  (df.map (fun p => ⟨p.1.uid, astypeStrip p.2, p.1.reward_amount_max_usd⟩)).filter
    (fun t => !(decide (t.tag = "")))

/-- `drop_duplicates(["uid", "subjects"])`: keep the first row of every
(uid, tag) pair. -/
def dedupUidTag (seen : List (String × String)) : List TagRow → List TagRow
  | [] => []
  | t :: ts =>
      if (t.uid, t.tag) ∈ seen then dedupUidTag seen ts
      else t :: dedupUidTag ((t.uid, t.tag) :: seen) ts

/-- The de-duplicated tag relation feeding the final groupby. -/
def dedupedTags (df : List RRow) : List TagRow :=
  dedupUidTag [] (tagRows (explodeTags (withSubjects (hasAmountRows df))))

/-- Output row of `reward_by_crime_type`. -/
structure CrimeRow where
  crime_type : String
  median_reward : Option ℚ
  mean_reward : Option ℚ
  max_reward : Option ℚ
  listings : Nat
deriving DecidableEq

/-- Pandas median: midpoint of the sorted values (mean of the middle two
when the count is even); `NaN` (`none`) on an empty set. -/
def sortedVals (l : List ℚ) : List ℚ := sortLe (fun a b => decide (a ≤ b)) l

def median (l : List ℚ) : Option ℚ :=
  if (sortedVals l).length = 0 then none
  else if (sortedVals l).length % 2 = 1 then
    some ((sortedVals l).getD ((sortedVals l).length / 2) 0)
  else
    some (((sortedVals l).getD ((sortedVals l).length / 2 - 1) 0 +
      (sortedVals l).getD ((sortedVals l).length / 2) 0) / 2)

def meanQ (l : List ℚ) : Option ℚ :=
  if l.length = 0 then none else some (l.sum / (l.length : ℚ))

/-- The aggregate row of one crime-type group: pandas `median`/`mean`/`max`
skip nulls and `count` counts non-null values. -/
def aggRow (k : String) (vals : List (Option ℚ)) : CrimeRow :=
  ⟨k, median (vals.filterMap id), meanQ (vals.filterMap id),
    listMax (vals.filterMap id), (vals.filterMap id).length⟩

/-- `sort_values("median_reward", ascending=False)`; pandas places `NaN`
keys last. -/
def crimeLe (a b : CrimeRow) : Bool :=
  match a.median_reward, b.median_reward with
  | some x, some y => decide (y ≤ x)
  | some _, none => true
  | none, some _ => false
  | none, none => true

/-- `reward_by_crime_type` (analysis.py). -/
def reward_by_crime_type (df : List RRow) : List CrimeRow :=
  sortLe crimeLe ((dedup1 ((dedupedTags df).map (fun t => t.tag))).map
    (fun k => aggRow k
      (((dedupedTags df).filter (fun t => decide (t.tag = k))).map (fun t => t.reward))))

end Analysis

/-! ## Supporting lemmas for the claims -/

theorem listMax_spec (l : List ℚ) (q : ℚ) (hq : q ∈ l) :
    ∃ mx, listMax l = some mx ∧ q ≤ mx ∧ mx ∈ l := by
  cases l with
  | nil => simp at hq
  | cons x xs =>
      exact ⟨xs.foldl max x, rfl, foldl_max_le xs x q hq, foldl_max_mem xs x⟩

theorem listMin_spec (l : List ℚ) (q : ℚ) (hq : q ∈ l) :
    ∃ mn, listMin l = some mn ∧ mn ≤ q ∧ mn ∈ l := by
  cases l with
  | nil => simp at hq
  | cons x xs =>
      exact ⟨xs.foldl min x, rfl, foldl_min_le xs x q hq, foldl_min_mem xs x⟩

namespace Rewards

theorem scanAmounts_of_whitespace :
    ∀ cs : List Char, (∀ c ∈ cs, c.isWhitespace = true) → scanAmounts cs = [] := by
  intro cs
  induction cs with
  | nil => intro _; rfl
  | cons c rest ih =>
      intro h
      have hc : ¬ c = '$' := by
        intro hceq
        have := h c (List.mem_cons_self c rest)
        rw [hceq] at this
        exact absurd this (by decide)
      simp only [scanAmounts, if_neg hc]
      exact ih (fun d hd => h d (List.mem_cons_of_mem c hd))

theorem parse_reward_of_blank (s : String) (h : isBlank s = true) :
    parse_reward (some s) = emptyReward := by
  simp [parse_reward, h]

theorem scanAmounts_of_blank (s : String) (h : isBlank s = true) :
    scanAmounts s.data = [] := by
  refine scanAmounts_of_whitespace s.data ?_
  intro c hc
  exact List.all_eq_true.mp h c hc

end Rewards

namespace Rewards

/-- On non-blank input, `parse_reward` returns the field record computed
from the scanned amounts. -/
theorem parse_reward_fields (s : String) (hb : isBlank s = false) :
    parse_reward (some s) =
      { reward_has_text := true
        reward_has_amount := !(scanAmounts s.data).isEmpty
        reward_amount_min_usd := listMin (scanAmounts s.data)
        reward_amount_max_usd := listMax (scanAmounts s.data)
        reward_is_up_to := amountsWithUpTo s.data false
        reward_mentions_additional :=
          containsLC s.data "additional".data || containsLC s.data "plus".data
        reward_program := matchProgram s.data } := by
  simp [parse_reward, hb]

end Rewards

/-! ## The claims -/

/-- C3: `parse_reward` applied to null input and to a blank or
whitespace-only string both return, without raising any error (the model is
a total function), the same result: every boolean field false, every amount
field null, and `reward_program` null. -/
theorem c3_parse_reward_null_blank_alike :
    Rewards.parse_reward none =
      { reward_has_text := false, reward_has_amount := false,
        reward_amount_min_usd := none, reward_amount_max_usd := none,
        reward_is_up_to := false, reward_mentions_additional := false,
        reward_program := none }
    ∧ ∀ s : String, Rewards.isBlank s = true →
        Rewards.parse_reward (some s) = Rewards.parse_reward none := by
  refine ⟨rfl, ?_⟩
  intro s h
  rw [Rewards.parse_reward_of_blank s h]
  rfl

/-- Witness for C3 at the whitespace-only string `"  "`. -/
theorem c3_parse_reward_null_blank_alike_witness :
    Rewards.isBlank "  " = true ∧
      Rewards.parse_reward (some "  ") = Rewards.parse_reward none :=
  ⟨by decide, c3_parse_reward_null_blank_alike.2 "  " (by decide)⟩

/-- C2: `parse_reward` collects all dollar amounts, applying the
scale-word multiplier case-insensitively; `reward_amount_max_usd` /
`reward_amount_min_usd` are the max and min of the collected set
(witnessed as members and bounds); `"$2 million"` gives 2,000,000, the
two-amount text gives max 2,000,000 and min 200,000; and with no amount
found `reward_has_amount` is false and both amount fields are null. -/
theorem c2_parse_reward_amounts :
    ((Rewards.parse_reward (some "$2 million")).reward_amount_max_usd = some 2000000
      ∧ (Rewards.parse_reward (some "$2 million")).reward_has_amount = true)
    ∧ ((Rewards.parse_reward
          (some "Reward of up to $2 million and an additional $200,000.")).reward_amount_max_usd
            = some 2000000
      ∧ (Rewards.parse_reward
          (some "Reward of up to $2 million and an additional $200,000.")).reward_amount_min_usd
            = some 200000)
    ∧ (Rewards.scanAmounts "$3 THOUSAND".data = [3000]
      ∧ Rewards.scanAmounts "$1 billion".data = [1000000000])
    ∧ (∀ s : String, Rewards.scanAmounts s.data = [] →
        (Rewards.parse_reward (some s)).reward_has_amount = false
        ∧ (Rewards.parse_reward (some s)).reward_amount_min_usd = none
        ∧ (Rewards.parse_reward (some s)).reward_amount_max_usd = none)
    ∧ (∀ s : String, ∀ q ∈ Rewards.scanAmounts s.data,
        (Rewards.parse_reward (some s)).reward_has_amount = true
        ∧ ∃ mx mn, (Rewards.parse_reward (some s)).reward_amount_max_usd = some mx
          ∧ (Rewards.parse_reward (some s)).reward_amount_min_usd = some mn
          ∧ mn ≤ q ∧ q ≤ mx
          ∧ mx ∈ Rewards.scanAmounts s.data ∧ mn ∈ Rewards.scanAmounts s.data) := by
  refine ⟨⟨by decide, by decide⟩, ⟨by decide, by decide⟩, ⟨by decide, by decide⟩, ?_, ?_⟩
  · intro s h
    by_cases hb : Rewards.isBlank s
    · rw [Rewards.parse_reward_of_blank s hb]
      exact ⟨rfl, rfl, rfl⟩
    · rw [Rewards.parse_reward_fields s (by simpa using hb), h]
      exact ⟨rfl, rfl, rfl⟩
  · intro s q hq
    by_cases hb : Rewards.isBlank s
    · rw [Rewards.scanAmounts_of_blank s hb] at hq
      simp at hq
    · rw [Rewards.parse_reward_fields s (by simpa using hb)]
      obtain ⟨mx, hmx, hqmx, hmxm⟩ := listMax_spec _ q hq
      obtain ⟨mn, hmn, hmnq, hmnm⟩ := listMin_spec _ q hq
      refine ⟨?_, mx, mn, hmx, hmn, hmnq, hqmx, hmxm, hmnm⟩
      cases hsa : Rewards.scanAmounts s.data with
      | nil => rw [hsa] at hq; simp at hq
      | cons a t => simp

/-- Witness for C2 at `"$50,000"` inside a sentence: the collected amount
50,000 is bounded by the reported min and max. -/
theorem c2_parse_reward_amounts_witness :
    (Rewards.parse_reward
      (some "The FBI is offering a reward of $50,000 for information.")).reward_has_amount
        = true :=
  (c2_parse_reward_amounts.2.2.2.2
    "The FBI is offering a reward of $50,000 for information." 50000 (by decide)).1

/-- The raw frame of the repository's own cleaning test
(`test_clean_wanted_parses_publication_and_field_offices_and_rewards`). -/
def c1raw : Cleaning.DataFrame :=
  ⟨["uid", "publication", "field_offices", "reward_text"],
   [[("uid", Cleaning.PVal.nat 1),
     ("publication", Cleaning.PVal.str "2024-01-15T00:00:00"),
     ("field_offices", Cleaning.PVal.strList ["denver", "saltlakecity"]),
     ("reward_text", Cleaning.PVal.str "The FBI is offering a reward of up to $10,000.")],
    [("uid", Cleaning.PVal.nat 2),
     ("publication", Cleaning.PVal.str "not-a-date"),
     ("field_offices", Cleaning.PVal.null),
     ("reward_text", Cleaning.PVal.null)]]⟩

/-- C1 (code bug): the claim — and the repository's own test and dashboard —
require `clean_wanted` to merge the parsed reward fields as new columns on
every record, but `clean_wanted` never adds a column: on the test's own raw
frame the output columns equal the input columns and none of the reward
columns is present. -/
theorem c1_clean_wanted_adds_no_reward_columns :
    (∀ df : Cleaning.DataFrame, (Cleaning.clean_wanted df).cols = df.cols)
    ∧ (Cleaning.clean_wanted c1raw).cols = ["uid", "publication", "field_offices", "reward_text"]
    ∧ (Cleaning.clean_wanted c1raw).cols.contains "reward_has_text" = false
    ∧ (Cleaning.clean_wanted c1raw).cols.contains "reward_has_amount" = false
    ∧ (Cleaning.clean_wanted c1raw).cols.contains "reward_amount_max_usd" = false := by
  refine ⟨Cleaning.clean_wanted_cols, ?_, ?_, ?_, ?_⟩ <;>
    rw [Cleaning.clean_wanted_cols] <;> decide

/-- C7: `clean_wanted` attempts a strict date/time parse of `publication`
and coerces failures to the null marker, never raising (the model is total)
and never dropping a row: row count is preserved, every row is mapped in
place, the publication cell is exactly the datetime coercion, and an
unparsable string becomes null. -/
theorem c7_publication_coerce_never_drops (df : Cleaning.DataFrame) :
    (Cleaning.clean_wanted df).rows.length = df.rows.length
    ∧ (Cleaning.clean_wanted df).rows = df.rows.map (Cleaning.cleanRow df.cols)
    ∧ ("publication" ∈ df.cols →
        ∀ v, Cleaning.cleanCell df.cols "publication" v = Cleaning.toDatetimeCoerce v)
    ∧ (∀ s, parseDate s = none →
        Cleaning.toDatetimeCoerce (Cleaning.PVal.str s) = Cleaning.PVal.null) := by
  refine ⟨?_, ?_, ?_, ?_⟩
  · rw [Cleaning.clean_wanted_eq]
    exact List.length_map _ _
  · rw [Cleaning.clean_wanted_eq]
  · intro hp v
    have hno : ¬ (("publication" : String) = "field_offices" ∧ "field_offices" ∈ df.cols) := by
      rintro ⟨hc, _⟩
      exact absurd hc (by decide)
    unfold Cleaning.cleanCell
    rw [if_neg hno, if_pos ⟨rfl, hp⟩]
  · intro s h
    simp [Cleaning.toDatetimeCoerce, h]

/-- Witness for C7: on a one-column frame, the unparsable publication
string `"not-a-date"` is coerced to the null marker. -/
theorem c7_publication_coerce_never_drops_witness :
    Cleaning.cleanCell ["publication"] "publication" (Cleaning.PVal.str "not-a-date")
      = Cleaning.PVal.null := by
  have h := c7_publication_coerce_never_drops ⟨["publication"], []⟩
  rw [h.2.2.1 (by decide) (Cleaning.PVal.str "not-a-date")]
  exact h.2.2.2 "not-a-date" (by decide)

/-- C8: `clean_wanted` produces exactly one output record per input record
(count and order preserved, each row mapped independently by a per-row
function of the column set), and any cell in a column other than
`publication` and `field_offices` passes through unmodified, with every
row's column keys unchanged. -/
theorem c8_clean_wanted_frame_effect (df : Cleaning.DataFrame) :
    (Cleaning.clean_wanted df).cols = df.cols
    ∧ (Cleaning.clean_wanted df).rows.length = df.rows.length
    ∧ (Cleaning.clean_wanted df).rows = df.rows.map (Cleaning.cleanRow df.cols)
    ∧ (∀ (cols : List String) (c : String) (v : Cleaning.PVal),
        ¬ c = "publication" → ¬ c = "field_offices" → Cleaning.cleanCell cols c v = v)
    ∧ (∀ r : Cleaning.Row, (Cleaning.cleanRow df.cols r).map Prod.fst = r.map Prod.fst) := by
  refine ⟨Cleaning.clean_wanted_cols df, ?_, ?_, ?_, ?_⟩
  · rw [Cleaning.clean_wanted_eq]
    exact List.length_map _ _
  · rw [Cleaning.clean_wanted_eq]
  · intro cols c v h1 h2
    simp [Cleaning.cleanCell, h1, h2]
  · intro r
    unfold Cleaning.cleanRow
    rw [List.map_map]
    rfl

/-- Witness for C8: a cell of the untouched column `uid` passes through. -/
theorem c8_clean_wanted_frame_effect_witness :
    Cleaning.cleanCell ["uid"] "uid" (Cleaning.PVal.nat 7) = Cleaning.PVal.nat 7 :=
  (c8_clean_wanted_frame_effect ⟨["uid"], []⟩).2.2.2.1 ["uid"] "uid" (Cleaning.PVal.nat 7)
    (by decide) (by decide)

/-- C9: `clean_wanted` is idempotent: re-cleaning its own output changes
nothing, in particular the already-normalized `publication` and
`field_offices` values. -/
theorem c9_clean_wanted_idempotent (df : Cleaning.DataFrame) :
    Cleaning.clean_wanted (Cleaning.clean_wanted df) = Cleaning.clean_wanted df :=
  Cleaning.clean_wanted_idem df

namespace Analysis

theorem groupCounts_map_fst (v : List (Nat × String)) :
    (groupCounts v).map Prod.fst = dedup1 (v.map Prod.fst) := by
  unfold groupCounts
  rw [List.map_map]
  exact List.map_id _

theorem groupCounts_sum (v : List (Nat × String)) :
    ((groupCounts v).map Prod.snd).sum = (dedup1 v).length := by
  unfold groupCounts
  rw [List.map_map]
  have hterm : ∀ d : Nat,
      (dedup1 ((v.filter (fun q => decide (q.1 = d))).map Prod.snd)).length =
        ((dedup1 v).filter (fun q => decide (q.1 = d))).length := by
    intro d
    have h1 : dedup1 ((v.filter (fun q => decide (q.1 = d))).map Prod.snd) =
        (dedup1 (v.filter (fun q => decide (q.1 = d)))).map Prod.snd := by
      refine dedupF_map_snd d _ [] ?_ ?_
      · intro x hx
        rcases List.mem_filter.mp hx with ⟨_, hxd⟩
        exact of_decide_eq_true hxd
      · intro y hy
        simp at hy
    rw [h1, List.length_map, dedup1_filter]
  have hmap : (dedup1 (v.map Prod.fst)).map
        ((fun p => p.2) ∘ fun d =>
          (d, (dedup1 ((v.filter (fun q => decide (q.1 = d))).map Prod.snd)).length)) =
      (dedup1 (v.map Prod.fst)).map
        (fun d => ((dedup1 v).filter (fun q => decide (q.1 = d))).length) := by
    refine List.map_congr_left ?_
    intro d _
    exact hterm d
  rw [hmap]
  refine partition_length Prod.fst (dedup1 (v.map Prod.fst)) (dedup1 v)
    (nodup_dedup1 _) ?_
  intro x hx
  have hxv : x ∈ v := (mem_dedup1 x v).mp hx
  exact (mem_dedup1 x.1 (v.map Prod.fst)).mpr (List.mem_map.mpr ⟨x, hxv, rfl⟩)

theorem dedup1_length_eq_of_inj (v : List (Nat × String))
    (h : ∀ p ∈ v, ∀ q ∈ v, p.2 = q.2 → p.1 = q.1) :
    (dedup1 v).length = (dedup1 (v.map Prod.snd)).length := by
  have hmapnd : ((dedup1 v).map Prod.snd).Nodup := by
    refine List.Nodup.map_on ?_ (nodup_dedup1 v)
    intro x hx y hy hxy
    have hxv : x ∈ v := (mem_dedup1 x v).mp hx
    have hyv : y ∈ v := (mem_dedup1 y v).mp hy
    exact Prod.ext (h x hxv y hyv hxy) hxy
  have hlen : ((dedup1 v).map Prod.snd).length = (dedup1 (v.map Prod.snd)).length := by
    refine nodup_length_eq _ _ hmapnd (nodup_dedup1 _) ?_
    intro u
    simp only [List.mem_map, mem_dedup1]
  rw [← hlen, List.length_map]

end Analysis

/-- C6 counterexample: on the one-row table whose `snapshot_date` is null,
`quantity_over_time` succeeds and returns no rows (pandas `groupby` drops
the `NaT` key), so the per-period counts sum to 0 while the whole dataset
has 1 distinct uid — even though no uid appears in more than one period
(the groupby relation is empty). -/
theorem c6_sum_equals_total_cex :
    Analysis.quantity_over_time [⟨none, "a"⟩] = some []
    ∧ Analysis.parseCol [⟨none, "a"⟩] = some [(none, "a")]
    ∧ Analysis.validPairs [(none, "a")] = []
    ∧ (dedup1 (([⟨none, "a"⟩] : List Analysis.QRow).map Analysis.QRow.uid)).length = 1 :=
  ⟨by decide, by decide, by decide, by decide⟩

/-- C6 (amended): for every table on which the strict datetime conversion
succeeds, `quantity_over_time` returns at most one row per distinct period,
sorted ascending by period, counting distinct uids per period; and the sum
of the per-period counts equals the number of distinct uids among the rows
with a non-null snapshot date (the groupby relation), whenever no such uid
appears in more than one period. -/
theorem c6_quantity_over_time_amended (rows : List Analysis.QRow)
    (parsed : List (Option Nat × String)) (hp : Analysis.parseCol rows = some parsed)
    (out : List (Nat × Nat)) (hout : Analysis.quantity_over_time rows = some out) :
    (out.map Prod.fst).Nodup
    ∧ out.Pairwise (fun a b => a.1 ≤ b.1)
    ∧ ((∀ p ∈ Analysis.validPairs parsed, ∀ q ∈ Analysis.validPairs parsed,
          p.2 = q.2 → p.1 = q.1) →
        (out.map Prod.snd).sum =
          (dedup1 ((Analysis.validPairs parsed).map Prod.snd)).length) := by
  have hform : some (sortLe (fun a b => decide (a.1 ≤ b.1))
      (Analysis.groupCounts (Analysis.validPairs parsed))) = some out := by
    unfold Analysis.quantity_over_time at hout
    rw [hp] at hout
    simpa using hout
  have hform2 := Option.some.inj hform
  set G := Analysis.groupCounts (Analysis.validPairs parsed) with hG
  have hperm : List.Perm out G := by
    rw [← hform2]
    exact sortLe_perm _ G
  refine ⟨?_, ?_, ?_⟩
  · have : List.Perm (out.map Prod.fst) (G.map Prod.fst) := hperm.map Prod.fst
    rw [this.nodup_iff, hG, Analysis.groupCounts_map_fst]
    exact nodup_dedup1 _
  · have hpw := pairwise_sortLe (fun a b : Nat × Nat => decide (a.1 ≤ b.1)) ?_ ?_ G
    · rw [← hform2]
      exact hpw.imp (fun h => of_decide_eq_true h)
    · intro a b
      rcases Nat.le_total a.1 b.1 with h | h
      · exact Or.inl (decide_eq_true h)
      · exact Or.inr (decide_eq_true h)
    · intro a b c hab hbc
      exact decide_eq_true (Nat.le_trans (of_decide_eq_true hab) (of_decide_eq_true hbc))
  · intro hinj
    have hsum : (out.map Prod.snd).sum = (G.map Prod.snd).sum :=
      (hperm.map Prod.snd).sum_eq
    rw [hsum, hG, Analysis.groupCounts_sum,
      Analysis.dedup1_length_eq_of_inj (Analysis.validPairs parsed) hinj]

/-- The three-row table used to exercise the amended C6 theorem. -/
def c6rows : List Analysis.QRow :=
  [⟨some "2024-01-05", "1"⟩, ⟨some "2024-01-05", "2"⟩, ⟨some "2024-02-01", "3"⟩]

def c6parsed : List (Option Nat × String) :=
  [(some 20240105000000, "1"), (some 20240105000000, "2"), (some 20240201000000, "3")]

def c6out : List (Nat × Nat) :=
  [(20240105000000, 2), (20240201000000, 1)]

/-- Witness for the amended C6 theorem on a concrete three-row table. -/
theorem c6_quantity_over_time_amended_witness :
    (c6out.map Prod.snd).sum = (dedup1 ((Analysis.validPairs c6parsed).map Prod.snd)).length :=
  (c6_quantity_over_time_amended c6rows c6parsed (by decide) c6out (by decide)).2.2
    (by decide)

theorem natCastSum : ∀ l : List Nat, ((l.sum : Nat) : ℚ) = (l.map (fun n => (Nat.cast n : ℚ))).sum := by
  intro l
  induction l with
  | nil => simp
  | cons x xs ih =>
      simp only [List.sum_cons, List.map_cons, Nat.cast_add]
      rw [ih]

theorem sum_div_q : ∀ (l : List ℚ) (x : ℚ), (l.map (fun q => q / x)).sum = l.sum / x := by
  intro l x
  induction l with
  | nil => simp
  | cons a as ih =>
      simp only [List.map_cons, List.sum_cons]
      rw [ih, add_div]

theorem nat_le_sum : ∀ (l : List Nat) (n : Nat), n ∈ l → n ≤ l.sum := by
  intro l
  induction l with
  | nil => intro n h; simp at h
  | cons x xs ih =>
      intro n h
      rw [List.mem_cons] at h
      rw [List.sum_cons]
      rcases h with h | h
      · omega
      · have := ih n h
        omega

namespace Analysis

/-- Dropping the null-geography rows before the datetime conversion
produces the corresponding sublist of parsed rows (the conversion is
per-cell, so it still succeeds). -/
theorem parseColG_filter :
    ∀ (rows : List GRow) (parsed : List KRow), parseColG rows = some parsed →
      parseColG (rows.filter (fun r => r.geo.isSome)) =
        some (parsed.filter (fun k => k.geo.isSome)) := by
  intro rows
  induction rows with
  | nil =>
      intro parsed h
      simp only [parseColG] at h
      rw [← Option.some.inj h]
      rfl
  | cons r rs ih =>
      intro parsed h
      cases hd : toDT r.snapshot_date with
      | none => rw [parseColG, hd] at h; exact absurd h (by simp)
      | some d =>
          cases ht : parseColG rs with
          | none => rw [parseColG, hd, ht] at h; exact absurd h (by simp)
          | some t =>
              rw [parseColG, hd, ht] at h
              have hparsed : parsed = ⟨d, r.uid, r.geo⟩ :: t := (Option.some.inj h).symm
              subst hparsed
              by_cases hr : r.geo.isSome
              · simp only [List.filter_cons, hr, if_true]
                rw [parseColG, hd, ih t ht]
              · simp only [List.filter_cons, hr, Bool.false_eq_true, if_false]
                exact ih t ht

/-- The kept relation is unchanged by pre-dropping null-geography rows
(the pipeline's own `dropna` does exactly this). -/
theorem keptRows_filter (parsed : List KRow) :
    keptRows (parsed.filter (fun k => k.geo.isSome)) = keptRows parsed := by
  unfold keptRows dropNullGeo
  rw [List.filter_filter]
  congr 1
  refine List.filter_congr ?_
  intro k _
  simp

theorem withShare_filter_date (counts : List CRow) (d : Nat) :
    (withShare counts).filter (fun o => decide (o.date = d)) =
      (counts.filter (fun c => decide (c.date = d))).map
        (fun c => ⟨c.date, c.geo, c.listings,
          (c.listings : ℚ) / ((dateTotal counts c.date : Nat) : ℚ)⟩) := by
  unfold withShare
  rw [List.filter_map]
  rfl

/-- Every group of the two-key groupby is non-empty, so its distinct-uid
count is at least 1. -/
theorem groupGeoCounts_listings_pos (kept : List TRow) :
    ∀ c ∈ groupGeoCounts kept, 1 ≤ c.listings := by
  intro c hc
  unfold groupGeoCounts at hc
  rcases List.mem_map.mp hc with ⟨k, hk, hck⟩
  have hkmem : k ∈ kept.map (fun t => (t.date, t.geo)) := (mem_dedup1 k _).mp hk
  rcases List.mem_map.mp hkmem with ⟨t, ht, htk⟩
  have htf : t ∈ kept.filter (fun t2 => decide (t2.date = k.1) && decide (t2.geo = k.2)) := by
    refine List.mem_filter.mpr ⟨ht, ?_⟩
    rw [← htk]
    simp
  have huid : t.uid ∈ (kept.filter
      (fun t2 => decide (t2.date = k.1) && decide (t2.geo = k.2))).map (fun t2 => t2.uid) :=
    List.mem_map.mpr ⟨t, htf, rfl⟩
  have hmem := (mem_dedup1 t.uid _).mpr huid
  have hpos := List.length_pos_of_mem hmem
  rw [← hck]
  exact hpos

end Analysis

/-- C4: on every table where it succeeds, the geographic-concentration
aggregation drops null-geography rows before counting (pre-filtering them
changes nothing), sets each row's share to its listing count divided by the
total listings of its timestamp bucket, has shares summing to exactly 1 in
every non-empty timestamp bucket, and is sorted by timestamp ascending then
share descending. -/
theorem c4_geographic_concentration (rows : List Analysis.GRow)
    (out : List Analysis.GOut)
    (hout : Analysis.geographic_concentration_over_time rows = some out) :
    Analysis.geographic_concentration_over_time
        (rows.filter (fun r => r.geo.isSome)) = some out
    ∧ (∀ o ∈ out, o.share = (o.listings : ℚ) /
        ((out.filter (fun o2 => decide (o2.date = o.date))).map
          (fun o2 => (Nat.cast o2.listings : ℚ))).sum)
    ∧ (∀ d : Nat, out.filter (fun o => decide (o.date = d)) ≠ [] →
        ((out.filter (fun o => decide (o.date = d))).map (fun o => o.share)).sum = 1)
    ∧ out.Pairwise (fun a b => a.date < b.date ∨ (a.date = b.date ∧ b.share ≤ a.share)) := by
  unfold Analysis.geographic_concentration_over_time at hout
  obtain ⟨parsed, hparse, hf0⟩ := Option.map_eq_some'.mp hout
  have hf : sortLe Analysis.geoLe
      (Analysis.withShare (Analysis.groupGeoCounts (Analysis.keptRows parsed))) = out := hf0
  set kept := Analysis.keptRows parsed with hkept
  set counts := Analysis.groupGeoCounts kept with hcounts
  set ws := Analysis.withShare counts with hws
  have hperm : List.Perm out ws := by
    rw [← hf]
    exact sortLe_perm _ ws
  have hbucket : ∀ d : Nat,
      ((out.filter (fun o => decide (o.date = d))).map
        (fun o2 => (Nat.cast o2.listings : ℚ))).sum =
      ((Nat.cast (Analysis.dateTotal counts d)) : ℚ) := by
    intro d
    have hp2 : List.Perm (out.filter (fun o => decide (o.date = d)))
        (ws.filter (fun o => decide (o.date = d))) := hperm.filter _
    rw [(hp2.map (fun o2 => (Nat.cast o2.listings : ℚ))).sum_eq]
    rw [hws, Analysis.withShare_filter_date counts d, List.map_map]
    rw [Analysis.dateTotal, natCastSum, List.map_map]
    rfl
  refine ⟨?_, ?_, ?_, ?_⟩
  · unfold Analysis.geographic_concentration_over_time
    rw [Analysis.parseColG_filter rows parsed hparse]
    simp only [Option.map_some']
    rw [Analysis.keptRows_filter parsed, ← hkept, ← hcounts, ← hws, ← hf]
  · intro o ho
    have hows : o ∈ ws := hperm.mem_iff.mp ho
    rw [hws] at hows
    unfold Analysis.withShare at hows
    rcases List.mem_map.mp hows with ⟨c, _, hco⟩
    rw [hbucket o.date, ← hco]
  · intro d hne
    have hp2 : List.Perm (out.filter (fun o => decide (o.date = d)))
        (ws.filter (fun o => decide (o.date = d))) := hperm.filter _
    rw [(hp2.map (fun o => o.share)).sum_eq]
    rw [hws, Analysis.withShare_filter_date counts d, List.map_map]
    have hcne : counts.filter (fun c => decide (c.date = d)) ≠ [] := by
      intro hnil
      rw [hws, Analysis.withShare_filter_date counts d, hnil] at hp2
      rw [hp2.eq_nil] at hne
      exact hne rfl
    obtain ⟨c0, hc0⟩ := List.exists_mem_of_ne_nil _ hcne
    have hc0c : c0 ∈ counts := (List.mem_filter.mp hc0).1
    have hc0d : c0.date = d := of_decide_eq_true (List.mem_filter.mp hc0).2
    have hT1 : 1 ≤ Analysis.dateTotal counts d := by
      have h1 := Analysis.groupGeoCounts_listings_pos kept c0 (by rw [← hcounts]; exact hc0c)
      have h2 : c0.listings ∈ (counts.filter (fun c => decide (c.date = d))).map
          (fun c => c.listings) := List.mem_map.mpr ⟨c0, hc0, rfl⟩
      have h3 := nat_le_sum _ c0.listings h2
      unfold Analysis.dateTotal
      omega
    have hTne : ((Nat.cast (Analysis.dateTotal counts d)) : ℚ) ≠ 0 := by
      refine Nat.cast_ne_zero.mpr ?_
      omega
    have hcong : (counts.filter (fun c => decide (c.date = d))).map
        ((fun o : Analysis.GOut => o.share) ∘ (fun c : Analysis.CRow =>
          (⟨c.date, c.geo, c.listings,
            (c.listings : ℚ) / ((Analysis.dateTotal counts c.date : Nat) : ℚ)⟩ : Analysis.GOut))) =
        (counts.filter (fun c => decide (c.date = d))).map
          (fun c : Analysis.CRow =>
            (Nat.cast c.listings : ℚ) / ((Nat.cast (Analysis.dateTotal counts d)) : ℚ)) := by
      refine List.map_congr_left ?_
      intro c hc
      have hcd : c.date = d := of_decide_eq_true (List.mem_filter.mp hc).2
      simp only [Function.comp]
      rw [hcd]
    rw [hcong]
    have hfact : (counts.filter (fun c => decide (c.date = d))).map
        (fun c : Analysis.CRow =>
          (Nat.cast c.listings : ℚ) / ((Nat.cast (Analysis.dateTotal counts d)) : ℚ)) =
        ((counts.filter (fun c => decide (c.date = d))).map
          (fun c : Analysis.CRow => (Nat.cast c.listings : ℚ))).map
            (fun q => q / ((Nat.cast (Analysis.dateTotal counts d)) : ℚ)) :=
      (List.map_map (fun q => q / ((Nat.cast (Analysis.dateTotal counts d)) : ℚ))
        (fun c : Analysis.CRow => (Nat.cast c.listings : ℚ))
        (counts.filter (fun c => decide (c.date = d)))).symm
    rw [hfact, sum_div_q]
    have hnum : ((counts.filter (fun c => decide (c.date = d))).map
        (fun c : Analysis.CRow => (Nat.cast c.listings : ℚ))).sum =
        ((Nat.cast (Analysis.dateTotal counts d)) : ℚ) := by
      rw [Analysis.dateTotal, natCastSum, List.map_map]
      rfl
    rw [hnum]
    exact div_self hTne
  · rw [← hf]
    have htot : ∀ a b : Analysis.GOut,
        Analysis.geoLe a b = true ∨ Analysis.geoLe b a = true := by
      intro a b
      unfold Analysis.geoLe
      rcases Nat.lt_trichotomy a.date b.date with h | h | h
      · left; simp [h]
      · rcases le_total b.share a.share with hs | hs
        · left; simp [h, hs]
        · right; simp [h.symm, hs]
      · right; simp [h]
    have htrans : ∀ a b c : Analysis.GOut, Analysis.geoLe a b = true →
        Analysis.geoLe b c = true → Analysis.geoLe a c = true := by
      intro a b c hab hbc
      unfold Analysis.geoLe at hab hbc ⊢
      simp only [Bool.or_eq_true, Bool.and_eq_true, decide_eq_true_eq] at hab hbc ⊢
      rcases hab with h1 | ⟨h1, hs1⟩ <;> rcases hbc with h2 | ⟨h2, hs2⟩
      · exact Or.inl (Nat.lt_trans h1 h2)
      · exact Or.inl (h2 ▸ h1)
      · exact Or.inl (h1 ▸ h2)
      · exact Or.inr ⟨h1.trans h2, hs2.trans hs1⟩
    have hpw := pairwise_sortLe Analysis.geoLe htot htrans ws
    refine hpw.imp ?_
    intro a b h
    unfold Analysis.geoLe at h
    simpa using h

/-- The five-row table (with one null geography) exercising C4. -/
def c4rows : List Analysis.GRow :=
  [⟨some "2024-01-05", "1", some "denver"⟩,
   ⟨some "2024-01-05", "2", some "denver"⟩,
   ⟨some "2024-01-05", "3", some "newyork"⟩,
   ⟨some "2024-02-01", "4", none⟩,
   ⟨some "2024-02-01", "5", some "miami"⟩]

def c4parsed : List Analysis.KRow :=
  [⟨some 20240105000000, "1", some "denver"⟩,
   ⟨some 20240105000000, "2", some "denver"⟩,
   ⟨some 20240105000000, "3", some "newyork"⟩,
   ⟨some 20240201000000, "4", none⟩,
   ⟨some 20240201000000, "5", some "miami"⟩]

/-- Witness for C4: the aggregation succeeds on the concrete five-row table
and its output is sorted by timestamp ascending then share descending. -/
theorem c4_geographic_concentration_witness :
    ((Analysis.geographic_concentration_over_time c4rows).getD []).Pairwise
      (fun a b => a.date < b.date ∨ (a.date = b.date ∧ b.share ≤ a.share)) := by
  have hparse : Analysis.parseColG c4rows = some c4parsed := by decide
  have hout : Analysis.geographic_concentration_over_time c4rows =
      some (sortLe Analysis.geoLe (Analysis.withShare (Analysis.groupGeoCounts
        (Analysis.keptRows c4parsed)))) := by
    unfold Analysis.geographic_concentration_over_time
    rw [hparse]
    rfl
  rw [hout]
  exact (c4_geographic_concentration c4rows _ hout).2.2.2

namespace Analysis

theorem mem_dedupUidTag :
    ∀ (l : List TagRow) (seen : List (String × String)) (t : TagRow),
      t ∈ dedupUidTag seen l → t ∈ l := by
  intro l
  induction l with
  | nil => intro seen t h; simp [dedupUidTag] at h
  | cons x xs ih =>
      intro seen t h
      by_cases hx : (x.uid, x.tag) ∈ seen
      · simp only [dedupUidTag, if_pos hx] at h
        exact List.mem_cons_of_mem x (ih seen t h)
      · simp only [dedupUidTag, if_neg hx] at h
        rw [List.mem_cons] at h
        rcases h with h | h
        · rw [h]; exact List.mem_cons_self x xs
        · exact List.mem_cons_of_mem x (ih _ t h)

theorem key_unseen_dedupUidTag :
    ∀ (l : List TagRow) (seen : List (String × String)) (t : TagRow),
      t ∈ dedupUidTag seen l → (t.uid, t.tag) ∉ seen := by
  intro l
  induction l with
  | nil => intro seen t h; simp [dedupUidTag] at h
  | cons x xs ih =>
      intro seen t h
      by_cases hx : (x.uid, x.tag) ∈ seen
      · simp only [dedupUidTag, if_pos hx] at h
        exact ih seen t h
      · simp only [dedupUidTag, if_neg hx] at h
        rw [List.mem_cons] at h
        rcases h with h | h
        · rw [h]; exact hx
        · intro hmem
          exact ih _ t h (List.mem_cons_of_mem _ hmem)

/-- The de-duplicated relation carries each (uid, tag) key at most once. -/
theorem nodup_keys_dedupUidTag :
    ∀ (l : List TagRow) (seen : List (String × String)),
      ((dedupUidTag seen l).map (fun t => (t.uid, t.tag))).Nodup := by
  intro l
  induction l with
  | nil => intro seen; simp [dedupUidTag]
  | cons x xs ih =>
      intro seen
      by_cases hx : (x.uid, x.tag) ∈ seen
      · simpa [dedupUidTag, if_pos hx] using ih seen
      · simp only [dedupUidTag, if_neg hx, List.map_cons]
        refine List.nodup_cons.mpr ⟨?_, ih _⟩
        intro hmem
        rcases List.mem_map.mp hmem with ⟨t, ht, htk⟩
        have := key_unseen_dedupUidTag xs _ t ht
        rw [htk] at this
        exact this (List.mem_cons_self _ _)

/-- Everything in the de-duplicated tag relation comes from a listing with
`reward_has_amount` genuinely true, keeping its uid, and carries a
stripped, non-empty tag. -/
theorem dedupedTags_provenance (df : List RRow) (t : TagRow)
    (h : t ∈ dedupedTags df) :
    ¬ t.tag = ""
    ∧ ∃ p : RRow × Option String,
        p ∈ explodeTags (withSubjects (hasAmountRows df))
        ∧ t.uid = p.1.uid ∧ t.tag = astypeStrip p.2 ∧ p.1 ∈ df
        ∧ p.1.reward_has_amount = some true := by
  have h1 : t ∈ tagRows (explodeTags (withSubjects (hasAmountRows df))) :=
    mem_dedupUidTag _ [] t h
  unfold tagRows at h1
  rcases List.mem_filter.mp h1 with ⟨h2, h3⟩
  rcases List.mem_map.mp h2 with ⟨p, hp, hpt⟩
  refine ⟨by simpa using h3, p, hp, ?_, ?_, ?_, ?_⟩
  · rw [← hpt]
  · rw [← hpt]
  · unfold explodeTags at hp
    rcases List.mem_flatMap.mp hp with ⟨q, hq, hpq⟩
    have hq1 : p.1 = q.1 := by
      by_cases he : q.2.isEmpty
      · rw [if_pos he] at hpq
        rcases List.mem_singleton.mp hpq with h
        rw [h]
      · rw [if_neg he] at hpq
        rcases List.mem_map.mp hpq with ⟨s, _, hs⟩
        rw [← hs]
    unfold withSubjects at hq
    rcases List.mem_filterMap.mp hq with ⟨r, hr, hrq⟩
    cases hsub : r.subjects with
    | none => rw [hsub] at hrq; simp at hrq
    | some l =>
        rw [hsub] at hrq
        simp only [Option.map_some'] at hrq
        have hq1r : q.1 = r := by rw [← Option.some.inj hrq]
        rw [hq1, hq1r]
        exact (List.mem_filter.mp hr).1
  · unfold explodeTags at hp
    rcases List.mem_flatMap.mp hp with ⟨q, hq, hpq⟩
    have hq1 : p.1 = q.1 := by
      by_cases he : q.2.isEmpty
      · rw [if_pos he] at hpq
        rcases List.mem_singleton.mp hpq with h
        rw [h]
      · rw [if_neg he] at hpq
        rcases List.mem_map.mp hpq with ⟨s, _, hs⟩
        rw [← hs]
    unfold withSubjects at hq
    rcases List.mem_filterMap.mp hq with ⟨r, hr, hrq⟩
    cases hsub : r.subjects with
    | none => rw [hsub] at hrq; simp at hrq
    | some l =>
        rw [hsub] at hrq
        simp only [Option.map_some'] at hrq
        have hq1r : q.1 = r := by rw [← Option.some.inj hrq]
        have hfil := (List.mem_filter.mp hr).2
        rw [hq1, hq1r]
        cases hra : r.reward_has_amount with
        | none => rw [hra] at hfil; simp [Option.getD] at hfil
        | some b =>
            rw [hra] at hfil
            simp only [Option.getD] at hfil
            cases b with
            | false => simp at hfil
            | true => rfl

theorem crimeLe_total (a b : CrimeRow) : crimeLe a b = true ∨ crimeLe b a = true := by
  unfold crimeLe
  cases ha : a.median_reward with
  | none =>
      cases hb : b.median_reward with
      | none => left; rfl
      | some y => right; rfl
  | some x =>
      cases hb : b.median_reward with
      | none => left; rfl
      | some y =>
          rcases le_total x y with h | h
          · right; simpa using h
          · left; simpa using h

theorem crimeLe_trans (a b c : CrimeRow) (hab : crimeLe a b = true)
    (hbc : crimeLe b c = true) : crimeLe a c = true := by
  unfold crimeLe at hab hbc ⊢
  cases ha : a.median_reward with
  | none =>
      cases hb : b.median_reward with
      | none =>
          rw [ha, hb] at hab
          rw [hb] at hbc
          cases hc : c.median_reward with
          | none => rfl
          | some z => rw [hc] at hbc; simp at hbc
      | some y => rw [ha, hb] at hab; simp at hab
  | some x =>
      cases hc : c.median_reward with
      | none => rfl
      | some z =>
          cases hb : b.median_reward with
          | none => rw [hb, hc] at hbc; simp at hbc
          | some y =>
              rw [ha, hb] at hab
              rw [hb, hc] at hbc
              simp only [decide_eq_true_eq] at hab hbc ⊢
              exact le_trans hbc hab

/-- The final sort of `reward_by_crime_type` orders rows by descending
median reward (null medians last). -/
theorem reward_by_crime_type_sorted (df : List RRow) :
    (reward_by_crime_type df).Pairwise (fun a b => crimeLe a b = true) := by
  unfold reward_by_crime_type
  exact pairwise_sortLe crimeLe crimeLe_total crimeLe_trans _

end Analysis

theorem aggRow_pair_100k_50k (k : String) :
    Analysis.aggRow k [some 100000, some 50000] =
      ⟨k, some 75000, some 75000, some 100000, 2⟩ := by
  have hv : (([some (100000 : ℚ), some 50000] : List (Option ℚ)).filterMap id) =
      [100000, 50000] := by decide
  unfold Analysis.aggRow
  rw [hv]
  have hs : Analysis.sortedVals [(100000 : ℚ), 50000] = [50000, 100000] := by decide
  have hmed : Analysis.median [(100000 : ℚ), 50000] = some 75000 := by
    unfold Analysis.median
    rw [hs]
    norm_num [List.getD_cons_zero, List.getD_cons_succ]
  have hmean : Analysis.meanQ [(100000 : ℚ), 50000] = some 75000 := by
    unfold Analysis.meanQ
    norm_num [List.sum_cons, List.sum_nil]
  have hmax : listMax [(100000 : ℚ), 50000] = some 100000 := by decide
  rw [hmed, hmean, hmax]
  rfl

theorem aggRow_single_100k (k : String) :
    Analysis.aggRow k [some 100000] =
      ⟨k, some 100000, some 100000, some 100000, 1⟩ := by
  have hv : (([some (100000 : ℚ)] : List (Option ℚ)).filterMap id) = [100000] := by decide
  unfold Analysis.aggRow
  rw [hv]
  have hs : Analysis.sortedVals [(100000 : ℚ)] = [100000] := by decide
  have hmed : Analysis.median [(100000 : ℚ)] = some 100000 := by
    unfold Analysis.median
    rw [hs]
    norm_num [List.getD_cons_zero]
  have hmean : Analysis.meanQ [(100000 : ℚ)] = some 100000 := by
    unfold Analysis.meanQ
    norm_num [List.sum_cons, List.sum_nil]
  have hmax : listMax [(100000 : ℚ)] = some 100000 := by decide
  rw [hmed, hmean, hmax]
  rfl

/-- The three-listing table of the C5 example (and of the repository's
test `test_reward_by_crime_type_basic_stats`). -/
def c5df : List Analysis.RRow :=
  [⟨"1", some ["Terrorism", "Bombing"], some true, some 100000⟩,
   ⟨"2", some ["Terrorism"], some true, some 50000⟩,
   ⟨"3", some ["Kidnapping"], some false, none⟩]

/-- C5: `reward_by_crime_type` includes only listings with
`reward_has_amount` true, counts each (uid, tag) pair at most once, and
sorts by median reward descending; on the three-listing example the
Terrorism row has listing count 2, median 75,000 and max 100,000, and
Kidnapping (no numeric reward) contributes no row at all. -/
theorem c5_reward_by_crime_type :
    Analysis.reward_by_crime_type c5df =
      [⟨"Bombing", some 100000, some 100000, some 100000, 1⟩,
       ⟨"Terrorism", some 75000, some 75000, some 100000, 2⟩]
    ∧ (∀ c ∈ Analysis.reward_by_crime_type c5df, ¬ c.crime_type = "Kidnapping")
    ∧ (∀ df : List Analysis.RRow,
        ((Analysis.dedupedTags df).map (fun t => (t.uid, t.tag))).Nodup)
    ∧ (∀ (df : List Analysis.RRow) (t : Analysis.TagRow), t ∈ Analysis.dedupedTags df →
        ∃ r ∈ df, r.uid = t.uid ∧ r.reward_has_amount = some true)
    ∧ (∀ df : List Analysis.RRow, (Analysis.reward_by_crime_type df).Pairwise
        (fun a b => Analysis.crimeLe a b = true)) := by
  have htags : Analysis.dedupedTags c5df =
      [⟨"1", "Terrorism", some 100000⟩, ⟨"1", "Bombing", some 100000⟩,
       ⟨"2", "Terrorism", some 50000⟩] := by decide
  have hex : Analysis.reward_by_crime_type c5df =
      [⟨"Bombing", some 100000, some 100000, some 100000, 1⟩,
       ⟨"Terrorism", some 75000, some 75000, some 100000, 2⟩] := by
    unfold Analysis.reward_by_crime_type
    rw [htags]
    have hkeys : dedup1 (([⟨"1", "Terrorism", some 100000⟩, ⟨"1", "Bombing", some 100000⟩,
        ⟨"2", "Terrorism", some 50000⟩] : List Analysis.TagRow).map (fun t => t.tag)) =
        ["Terrorism", "Bombing"] := by decide
    rw [hkeys]
    have hf1 : (([⟨"1", "Terrorism", some 100000⟩, ⟨"1", "Bombing", some 100000⟩,
        ⟨"2", "Terrorism", some 50000⟩] : List Analysis.TagRow).filter
          (fun t => decide (t.tag = "Terrorism"))).map (fun t => t.reward) =
        [some 100000, some 50000] := by decide
    have hf2 : (([⟨"1", "Terrorism", some 100000⟩, ⟨"1", "Bombing", some 100000⟩,
        ⟨"2", "Terrorism", some 50000⟩] : List Analysis.TagRow).filter
          (fun t => decide (t.tag = "Bombing"))).map (fun t => t.reward) =
        [some 100000] := by decide
    simp only [List.map_cons, List.map_nil]
    rw [hf1, hf2, aggRow_pair_100k_50k, aggRow_single_100k]
    decide
  refine ⟨hex, ?_, ?_, ?_, ?_⟩
  · intro c hc
    rw [hex, List.mem_cons, List.mem_cons] at hc
    rcases hc with h | h | h
    · rw [h]; decide
    · rw [h]; decide
    · simp at h
  · intro df
    exact Analysis.nodup_keys_dedupUidTag _ []
  · intro df t h
    obtain ⟨_, p, _, huid, _, hpdf, hra⟩ := Analysis.dedupedTags_provenance df t h
    exact ⟨p.1, hpdf, huid.symm, hra⟩
  · intro df
    exact Analysis.reward_by_crime_type_sorted df

/-- Witness for C5: the Terrorism tag row of uid 1 indeed traces back to a
listing of the example table with a genuine numeric reward. -/
theorem c5_reward_by_crime_type_witness :
    ∃ r ∈ c5df, r.uid = "1" ∧ r.reward_has_amount = some true :=
  c5_reward_by_crime_type.2.2.2.1 c5df ⟨"1", "Terrorism", some 100000⟩ (by decide)

/-- Tags differing only in surrounding whitespace, and a whitespace-only
tag, exercising C10. -/
def c10df : List Analysis.RRow :=
  [⟨"1", some [" Terrorism "], some true, some 100000⟩,
   ⟨"2", some ["Terrorism"], some true, some 50000⟩,
   ⟨"3", some ["   "], some true, some 7⟩]

/-- C10: before de-duplicating and grouping, every exploded subject tag is
converted to a string and stripped, and tags empty after stripping are
excluded — so ` Terrorism ` and `Terrorism` merge into one crime-type group
and a whitespace-only tag contributes nothing to the output. -/
theorem c10_tags_stripped_and_merged :
    (∀ (df : List Analysis.RRow) (t : Analysis.TagRow), t ∈ Analysis.dedupedTags df →
        ¬ t.tag = "" ∧ ∃ p : Analysis.RRow × Option String,
          p ∈ Analysis.explodeTags (Analysis.withSubjects (Analysis.hasAmountRows df))
          ∧ t.tag = Analysis.astypeStrip p.2)
    ∧ Analysis.reward_by_crime_type c10df =
        [⟨"Terrorism", some 75000, some 75000, some 100000, 2⟩] := by
  constructor
  · intro df t h
    obtain ⟨hne, p, hp, _, htag, _, _⟩ := Analysis.dedupedTags_provenance df t h
    exact ⟨hne, p, hp, htag⟩
  · have htags : Analysis.dedupedTags c10df =
        [⟨"1", "Terrorism", some 100000⟩, ⟨"2", "Terrorism", some 50000⟩] := by decide
    unfold Analysis.reward_by_crime_type
    rw [htags]
    have hkeys : dedup1 (([⟨"1", "Terrorism", some 100000⟩,
        ⟨"2", "Terrorism", some 50000⟩] : List Analysis.TagRow).map (fun t => t.tag)) =
        ["Terrorism"] := by decide
    rw [hkeys]
    have hf : (([⟨"1", "Terrorism", some 100000⟩,
        ⟨"2", "Terrorism", some 50000⟩] : List Analysis.TagRow).filter
          (fun t => decide (t.tag = "Terrorism"))).map (fun t => t.reward) =
        [some 100000, some 50000] := by decide
    simp only [List.map_cons, List.map_nil]
    rw [hf, aggRow_pair_100k_50k]
    decide

/-- Witness for C10: the stripped tag `Terrorism` of uid 1 is in the
de-duplicated relation and is non-empty. -/
theorem c10_tags_stripped_and_merged_witness :
    ¬ (⟨"1", "Terrorism", some 100000⟩ : Analysis.TagRow).tag = ""
    ∧ (⟨"1", "Terrorism", some 100000⟩ : Analysis.TagRow) ∈ Analysis.dedupedTags c10df :=
  ⟨(c10_tags_stripped_and_merged.1 c10df ⟨"1", "Terrorism", some 100000⟩ (by decide)).1,
   by decide⟩
